import Mathlib

/-!
Verification development for the PipperTTS voice-inference front-end.

The definitions below are a shallow embedding of the two inference variants of
the repository (`piper_inference.py` and `piper_inference_fixed.py`):

* the per-voice phoneme table (the JSON `phoneme_id_map`, a mapping from symbol
  strings to lists of integer token ids),
* the character-level encoder `text_to_phonemes` of the fixed variant and the
  gruut-driven encoder `text_to_phonemes` of the original variant,
* the fallback token generator `_generate_fallback_phonemes`,
* the procedural fallback audio generator `generate_fallback_audio`,
* the backend cascade of `synthesize` (fixed variant), and
* the constructors (`__init__`) of both variants.

Machine integers of the source are modelled as `Nat`; audio samples (numpy
float arrays) are modelled as lists of rationals, with `np.sin` passed in as an
oracle function, since the claims under study (emptiness, determinism, length,
amplitude bounds after peak normalization) do not depend on the transcendental
values themselves.  Fallible operations (list indexing that can raise
`IndexError`, `max` over an empty collection that raises `ValueError`,
backend execution) are modelled with `Except Unit`.
-/

/-- A phoneme table: the JSON object `phoneme_id_map`, i.e. an association list
from symbol strings to lists of token ids (Python `dict` with unique keys). -/
abbrev PhonemeTable := List (String × List Nat)

/-- Dictionary lookup `m[k]` / `m.get(k)`: the value of the first entry whose
key equals `k`. -/
def tableLookup (m : PhonemeTable) (k : String) : Option (List Nat) :=
  (m.find? (fun p => p.1 == k)).map Prod.snd

/-- Python `k in m` membership test. -/
def tableMem (m : PhonemeTable) (k : String) : Bool :=
  (tableLookup m k).isSome

/-- Python `lst[0]`: raises `IndexError` on an empty list. -/
def headE (l : List Nat) : Except Unit Nat :=
  match l with
  | [] => .error ()
  | x :: _ => .ok x

/-- The idiom `m.get(k, [d])[0] if k in m else d` used for the BOS, EOS and
separator ids: when `k` is present the first element of its id list (which can
raise on an empty id list), otherwise the default `d`. -/
def getSymbolId (m : PhonemeTable) (k : String) (d : Nat) : Except Unit Nat :=
  match tableLookup m k with
  | some ids => headE ids
  | none => .ok d

/-- Python `max(l)` over a list: raises `ValueError` on an empty input,
otherwise the greatest element. -/
def listMax {α : Type} [LinearOrder α] (l : List α) : Except Unit α :=
  match l with
  | [] => .error ()
  | x :: xs => .ok (xs.foldl max x)

/-- Error-propagating list map: the Python pattern of appending the result of a
fallible operation for each element of a list in order (the whole computation
raises as soon as one element does). -/
def mapME {α β : Type} (f : α → Except Unit β) : List α → Except Unit (List β)
  | [] => .ok []
  | a :: as =>
    match f a with
    | .error e => .error e
    | .ok b =>
      match mapME f as with
      | .error e => .error e
      | .ok bs => .ok (b :: bs)

/-- `max(max(ids) for ids in phoneme_id_map.values())`: the maximum id present
in the table; raises when the table is empty or when some id list is empty. -/
def tableMaxId (m : PhonemeTable) : Except Unit Nat :=
  match mapME (fun p => listMax p.2) m with
  | .error e => .error e
  | .ok maxes => listMax maxes

/-- `_create_default_phoneme_map` of `piper_inference_fixed.py`: the fixed
default table (control symbols, punctuation, and the 26 letters). -/
def createDefaultPhonemeMap : PhonemeTable :=
  [("_", [1]), ("$", [2]), (" ", [3]), (".", [4]), (",", [5]), ("!", [6]), ("?", [7]),
   ("a", [14]), ("e", [18]), ("i", [21]), ("o", [27]), ("u", [33]),
   ("b", [15]), ("c", [16]), ("d", [17]), ("f", [19]), ("g", [20]),
   ("h", [22]), ("j", [23]), ("k", [24]), ("l", [25]), ("m", [26]),
   ("n", [28]), ("p", [29]), ("q", [30]), ("r", [31]), ("s", [32]),
   ("t", [34]), ("v", [35]), ("w", [36]), ("x", [37]), ("y", [38]), ("z", [39])]

/-- The substitution at the top of the fixed variant's `text_to_phonemes`:
an empty `phoneme_id_map` is replaced by the default table. -/
def effectiveTable (table : PhonemeTable) : PhonemeTable :=
  if table.isEmpty then createDefaultPhonemeMap else table

/-- Python `str.lower()` (ASCII case folding on the characters). -/
def pyLower (s : List Char) : List Char :=
  s.map Char.toLower

/-- Python whitespace characters recognised by `str.strip()`. -/
def isPySpace (c : Char) : Bool :=
  c == ' ' || c == '\t' || c == '\n' || c == '\r' || c == '\x0b' || c == '\x0c'

/-- Python `str.strip()`: remove leading and trailing whitespace. -/
def pyStrip (s : List Char) : List Char :=
  ((s.dropWhile isPySpace).reverse.dropWhile isPySpace).reverse

/-- The `char_to_phoneme` dictionary of the fixed variant's
`text_to_phonemes`. -/
def charToPhonemeTable : List (Char × String) :=
  [('a', "a"), ('e', "e"), ('i', "i"), ('o', "o"), ('u', "u"),
   ('b', "b"), ('c', "k"), ('d', "d"), ('f', "f"), ('g', "g"),
   ('h', "h"), ('j', "j"), ('k', "k"), ('l', "l"), ('m', "m"),
   ('n', "n"), ('p', "p"), ('q', "k"), ('r', "r"), ('s', "s"),
   ('t', "t"), ('v', "v"), ('w', "w"), ('x', "ks"), ('y', "i"),
   ('z', "z"), (' ', " "), ('.', "."), (',', ","), ('!', "!"), ('?', "?")]

/-- `char_to_phoneme` lookup for one character. -/
def charToPhoneme (c : Char) : Option String :=
  (charToPhonemeTable.find? (fun p => p.1 == c)).map Prod.snd

/-- One loop iteration of the fixed variant's `text_to_phonemes`: a known
character is mapped through `char_to_phoneme` and then looked up in the table,
falling back to the space/separator id; an unknown character maps directly to
the space/separator id. -/
def encodeCharFixed (m : PhonemeTable) (c : Char) : Except Unit Nat :=
  match charToPhoneme c with
  | some p =>
    match tableLookup m p with
    | some ids => headE ids
    | none => getSymbolId m " " 3
  | none => getSymbolId m " " 3

/-- The body of the fixed variant's `text_to_phonemes` after the default-table
substitution and text normalization: BOS id, one token per character, EOS id,
then clamping of every id to the maximum id of the table. -/
def phonemizeCore (m : PhonemeTable) (t : List Char) : Except Unit (List Nat) :=
  match getSymbolId m "_" 1 with
  | .error e => .error e
  | .ok bos =>
    match mapME (encodeCharFixed m) t with
    | .error e => .error e
    | .ok body =>
      match getSymbolId m "$" 2 with
      | .error e => .error e
      | .ok eos =>
        match (if m.isEmpty then Except.ok 200 else tableMaxId m) with
        | .error e => .error e
        | .ok maxId => .ok ((bos :: (body ++ [eos])).map (fun i => min i maxId))

/-- `PiperTTSInference.text_to_phonemes` of `piper_inference_fixed.py`:
substitute the default table when the configured one is empty, lowercase and
strip the text, then encode character by character. -/
def text_to_phonemes_fixed (table : PhonemeTable) (text : List Char) : Except Unit (List Nat) :=
  phonemizeCore (effectiveTable table) (pyStrip (pyLower text))

/-! ### Fallback token generator (`_generate_fallback_phonemes`, original variant) -/

/-- The fixed 5-element vowel id pool of `_generate_fallback_phonemes`. -/
def vowelPool : List Nat := [14, 18, 21, 27, 33]

/-- The fixed 18-element consonant id pool of `_generate_fallback_phonemes`. -/
def consonantPool : List Nat :=
  [15, 17, 19, 20, 23, 24, 25, 26, 28, 29, 30, 31, 32, 34, 35, 36, 37, 38]

/-- Tokens emitted by iteration `i` of the `_generate_fallback_phonemes` loop:
a vowel id for even `i`, a consonant id for odd `i`, followed by the separator
id `3` after every fourth iteration. -/
def fallbackTokenAt (i : Nat) : List Nat :=
  (if i % 2 = 0 then [vowelPool.getD (i % 5) 0] else [consonantPool.getD (i % 18) 0]) ++
    (if i % 4 = 3 then [3] else [])

/-- Concatenation of `f i` over a list of indices (the loop body appending
tokens in order). -/
def catMap {α β : Type} (f : α → List β) : List α → List β
  | [] => []
  | a :: as => f a ++ catMap f as

/-- `PiperTTSInference._generate_fallback_phonemes` of `piper_inference.py`:
BOS, the alternating vowel/consonant pattern over `min(len(text), 50)`
iterations with a separator every 4 tokens, then EOS. -/
def generate_fallback_phonemes (text : List Char) : List Nat :=
  1 :: (catMap fallbackTokenAt (List.range (min text.length 50)) ++ [2])

/-! ### Original variant encoder (`text_to_phonemes` of `piper_inference.py`)

The gruut linguistic engine is an external library; its outcome is passed in
as an oracle: either a failure (any exception while iterating sentences) or
the flattened list of words, each carrying its phoneme list and its text. -/

/-- A word as produced by the gruut engine: its phoneme strings (possibly
empty) and its raw text. -/
structure GWord where
  phonemes : List String
  txt : List Char

/-- The `similar_map` of `_find_similar_phoneme`. -/
def similarMap : List (String × String) :=
  [("ɑ", "a"), ("ɒ", "a"), ("ʌ", "a"), ("ə", "a"),
   ("ɛ", "e"), ("ɜ", "e"), ("ɪ", "i"), ("ɨ", "i"),
   ("ɔ", "o"), ("ɵ", "o"), ("ʊ", "u"), ("ʉ", "u"),
   ("ɹ", "r"), ("ɾ", "r"), ("ʔ", "t"), ("θ", "t"),
   ("ð", "d"), ("ʒ", "z"), ("ʃ", "s"), ("ç", "h")]

/-- `PiperTTSInference._find_similar_phoneme`: map the phoneme through
`similar_map` and look the substitute up in the table; otherwise fall back to
the id of the vowel `a` (default `14`). -/
def find_similar_phoneme (p : String) (m : PhonemeTable) : Except Unit Nat :=
  match (similarMap.find? (fun q => q.1 == p)).map Prod.snd with
  | some s =>
    match tableLookup m s with
    | some ids => headE ids
    | none => getSymbolId m "a" 14
  | none => getSymbolId m "a" 14

/-- Encoding of a single word-level phoneme in the original variant: exact
table hit, else the similarity fallback. -/
def encodePhonemeOrig (m : PhonemeTable) (p : String) : Except Unit Nat :=
  match tableLookup m p with
  | some ids => headE ids
  | none => find_similar_phoneme p m

/-- Encoding of a single character of a word without phonemes in the original
variant: exact table hit on the one-character string, else the separator id
for whitespace, else the `a` placeholder id. -/
def encodeWordCharOrig (m : PhonemeTable) (c : Char) : Except Unit Nat :=
  match tableLookup m (String.mk [c]) with
  | some ids => headE ids
  | none =>
    if isPySpace c then getSymbolId m " " 3 else getSymbolId m "a" 14

/-- Encoding of one gruut word in the original variant: its phonemes when
present, otherwise its lowercased characters, followed by a separator id. -/
def encodeWordOrig (m : PhonemeTable) (w : GWord) : Except Unit (List Nat) :=
  match (match w.phonemes with
         | [] => mapME (encodeWordCharOrig m) (pyLower w.txt)
         | p :: ps => mapME (encodePhonemeOrig m) (p :: ps)) with
  | .error e => .error e
  | .ok toks =>
    match getSymbolId m " " 3 with
    | .error e => .error e
    | .ok sp => .ok (toks ++ [sp])

/-- Concatenation of the per-word token lists. -/
def joinAll : List (List Nat) → List Nat
  | [] => []
  | l :: ls => l ++ joinAll ls

/-- The `try` body of the original variant's `text_to_phonemes` for a
non-empty table: BOS id, tokens of every gruut word, EOS id, then clamping to
the maximum id of the table.  Any raising step (empty id list, gruut failure)
surfaces as an error. -/
def origCore (m : PhonemeTable) (gr : Except Unit (List GWord)) : Except Unit (List Nat) :=
  match getSymbolId m "_" 1 with
  | .error e => .error e
  | .ok bos =>
    match gr with
    | .error e => .error e
    | .ok words =>
      match mapME (encodeWordOrig m) words with
      | .error e => .error e
      | .ok wtoks =>
        match getSymbolId m "$" 2 with
        | .error e => .error e
        | .ok eos =>
          match (if m.isEmpty then Except.ok 200 else tableMaxId m) with
          | .error e => .error e
          | .ok mx => .ok ((bos :: (joinAll wtoks ++ [eos])).map (fun i => min i mx))

/-- `PiperTTSInference.text_to_phonemes` of `piper_inference.py`: an empty
table short-circuits to the fallback token generator; otherwise the `try` body
runs and any exception inside it is caught, returning the fallback token
generator's output.  The function as a whole never raises. -/
def text_to_phonemes_orig (table : PhonemeTable) (gr : Except Unit (List GWord))
    (text : List Char) : List Nat :=
  if table.isEmpty then generate_fallback_phonemes text
  else
    match origCore table gr with
    | .ok l => l
    | .error _ => generate_fallback_phonemes text

/-! ### Fallback audio generator (`generate_fallback_audio`, fixed variant)

Audio samples are rationals; `np.sin` is an oracle parameter `sinA`. -/

/-- `np.linspace a b n`: `n` evenly spaced points from `a` to `b` inclusive
(empty for `n = 0`, the single point `a` for `n = 1`). -/
def linspace (a b : ℚ) (n : Nat) : List ℚ :=
  if n = 0 then []
  else if n = 1 then [a]
  else (List.range n).map (fun k => a + (b - a) * k / (n - 1))

/-- The double-precision value of `np.pi` as a rational. -/
def piQ : ℚ := 3.141592653589793

/-- `220 + (ord(char) - ord('a')) * 10`: the per-character harmonic frequency
of `generate_fallback_audio`. -/
def charFreq (c : Char) : ℚ :=
  220 + ((c.toNat : ℚ) - (('a').toNat : ℚ)) * 10

/-- Value at time `τ` of the harmonic sum of `generate_fallback_audio`: each
alphabetic character at position `i` contributes a sinusoid of amplitude
`0.3 / (i + 1)`. -/
def harmonicAt (sinA : ℚ → ℚ) (lowered : List Char) (τ : ℚ) : ℚ :=
  lowered.enum.foldl
    (fun acc p =>
      if p.2.isAlpha then
        acc + (3 / 10) / ((p.1 : ℚ) + 1) * sinA (2 * piQ * charFreq p.2 * τ)
      else acc)
    0

/-- The attack segment of the envelope: `envelope[:attack] = linspace(0,1,attack)`
whenever the buffer is longer than `attack = int(0.01 * sample_rate)`. -/
def applyAttack (sr : Nat) (env : List ℚ) : List ℚ :=
  let attack := sr / 100
  if attack < env.length then linspace 0 1 attack ++ env.drop attack else env

/-- The release segment of the envelope: `envelope[-release:] = linspace(1,0,release)`
whenever the buffer is longer than `release = int(0.1 * sample_rate)`. -/
def applyRelease (sr : Nat) (env : List ℚ) : List ℚ :=
  let rel := sr / 10
  if rel < env.length then env.take (env.length - rel) ++ linspace 1 0 rel else env

/-- `np.max(np.abs(audio))`: raises on an empty buffer. -/
def maxAbs (l : List ℚ) : Except Unit ℚ :=
  listMax (l.map (fun x => |x|))

/-- The peak-normalization idiom
`if np.max(np.abs(audio)) > 0: audio = c * audio / np.max(np.abs(audio))`:
raises on an empty buffer, scales the peak to `c` when positive, and leaves an
all-zero buffer untouched. -/
def peakNormalize (c : ℚ) (audio : List ℚ) : Except Unit (List ℚ) :=
  match maxAbs audio with
  | .error e => .error e
  | .ok m => .ok (if 0 < m then audio.map (fun x => c * x / m) else audio)

/-- `PiperTTSInference.generate_fallback_audio` of `piper_inference_fixed.py`:
a buffer of `int(sample_rate * 0.1 * len(text))` samples holding the harmonic
sum of the lowercased text, shaped by an attack/release envelope, then
peak-normalized to `0.8`.  For a zero-length buffer the final `np.max` raises. -/
def generate_fallback_audio (sinA : ℚ → ℚ) (text : List Char) (sampleRate : Nat) :
    Except Unit (List ℚ) :=
  let n := sampleRate * text.length / 10
  let ts := linspace 0 ((text.length : ℚ) * (1 / 10)) n
  let lowered := pyLower text
  let raw := ts.map (harmonicAt sinA lowered)
  let env := applyRelease sampleRate (applyAttack sampleRate (List.replicate n 1))
  let audio := List.zipWith (fun x y => x * y) raw env
  peakNormalize (4 / 5) audio

/-- Modelled from the spec: the Griffin-Lim mel inversion of `mel_to_audio`
(`piper_inference.py`) is performed by the external librosa library, which is
not part of this repository; only its final step is modelled — the
reconstructed time-domain signal is taken as an oracle input and peak-normalized
to amplitude `1.0` (`librosa.util.normalize`). -/
def mel_to_audio (reconstructed : List ℚ) : Except Unit (List ℚ) :=
  peakNormalize 1 reconstructed

/-! ### Backend cascade (`synthesize` of `piper_inference_fixed.py`)

The ONNX and PyTorch runtimes are external libraries; each backend is passed
in as `Option (Except Unit (List ℚ))`: `none` when the backend was not loaded
(`self.session is None` / `self.model is None`) and `some r` when it is
loaded and its execution on this call yields `r` (raw output samples, or a
raised exception). -/

/-- `synthesize_with_onnx`: raises when no session is loaded or when the run
raises, otherwise peak-normalizes the flattened output to `0.8` (raising on an
empty output buffer). -/
def synthesize_with_onnx (sess : Option (Except Unit (List ℚ))) : Except Unit (List ℚ) :=
  match sess with
  | none => .error ()
  | some (.error e) => .error e
  | some (.ok audio) => peakNormalize (4 / 5) audio

/-- `synthesize_with_pytorch`: same shape as the ONNX tier. -/
def synthesize_with_pytorch (mdl : Option (Except Unit (List ℚ))) : Except Unit (List ℚ) :=
  match mdl with
  | none => .error ()
  | some (.error e) => .error e
  | some (.ok audio) => peakNormalize (4 / 5) audio

/-- The backend selection of `synthesize` after the text has been encoded:
try ONNX when a session is loaded, on its failure try PyTorch when a model is
loaded (re-raising when not); with no session try PyTorch directly; with no
backend at all run the fallback audio generator. -/
def cascadeAfterEncode (sess mdl : Option (Except Unit (List ℚ)))
    (sinA : ℚ → ℚ) (text : List Char) (sr : Nat) : Except Unit (List ℚ) :=
  match sess with
  | some r =>
    match synthesize_with_onnx (some r) with
    | .ok a => .ok a
    | .error e =>
      match mdl with
      | some r2 => synthesize_with_pytorch (some r2)
      | none => .error e
  | none =>
    match mdl with
    | some r2 => synthesize_with_pytorch (some r2)
    | none => generate_fallback_audio sinA text sr

/-- `PiperTTSInference.synthesize` of `piper_inference_fixed.py`: encode the
text, run the backend selection, and catch any exception of the whole body by
returning the fallback audio generator's output — which itself can still
raise (that exception propagates to the caller). -/
def synthesizeM (sess mdl : Option (Except Unit (List ℚ))) (cfg : PhonemeTable)
    (sinA : ℚ → ℚ) (text : List Char) (sr : Nat) : Except Unit (List ℚ) :=
  let inner : Except Unit (List ℚ) :=
    match text_to_phonemes_fixed cfg text with
    | .error e => .error e
    | .ok _ => cascadeAfterEncode sess mdl sinA text sr
  match inner with
  | .ok a => .ok a
  | .error _ => generate_fallback_audio sinA text sr

/-- A concrete stand-in for the sine oracle, used in concrete evaluations. -/
def zeroSig : ℚ → ℚ := fun _ => 0

/-! ### Constructors (`__init__`) of both variants

The filesystem and the runtimes are external: the sidecar read is passed in
as `Option (Option PhonemeTable)` (`none`: the file is missing and `open`
raises; `some none`: the file exists but `json.load` raises; `some (some c)`:
the parsed configuration, reduced to its phoneme table) and each backend
construction as `Except Unit Unit`. -/

/-- Load-time errors of the original variant (uncaught exceptions of its
`__init__`). -/
inductive LoadError where
  | configNotFound
  | configMalformed
deriving DecidableEq

/-- The state built by the original variant's `__init__`: the parsed
configuration, whether the ONNX session loaded, and — only probed when ONNX
failed — whether the PyTorch checkpoint loaded. -/
structure OrigInit where
  config : PhonemeTable
  onnx_available : Bool
  pytorch_available : Option Bool
deriving DecidableEq

/-- `PiperTTSInference.__init__` of `piper_inference.py`: a missing sidecar
and a malformed sidecar raise; both backend constructions are wrapped in
`try`/`except`, so a missing or unloadable model artifact never fails the
constructor. -/
def initOriginal (sidecar : Option (Option PhonemeTable))
    (onnxLoad torchLoad : Except Unit Unit) : Except LoadError OrigInit :=
  match sidecar with
  | none => .error .configNotFound
  | some none => .error .configMalformed
  | some (some cfg) =>
    match onnxLoad with
    | .ok _ => .ok ⟨cfg, true, none⟩
    | .error _ =>
      match torchLoad with
      | .ok _ => .ok ⟨cfg, false, some true⟩
      | .error _ => .ok ⟨cfg, false, some false⟩

/-- The state built by the fixed variant's `__init__`. -/
structure FixedInit where
  config : PhonemeTable
  sessionLoaded : Bool
  modelLoaded : Bool
deriving DecidableEq

/-- `PiperTTSInference.__init__` of `piper_inference_fixed.py`: every step is
wrapped in `try`/`except` — a missing or malformed sidecar degrades to an
empty configuration, ONNX loads only when the runtime is importable and the
construction succeeds, and PyTorch is probed only when no session loaded.
The constructor never fails. -/
def initFixed (sidecar : Option (Option PhonemeTable))
    (onnxImportable : Bool) (onnxLoad : Except Unit Unit)
    (torchImportable : Bool) (torchLoad : Except Unit Unit) : FixedInit :=
  let cfg :=
    match sidecar with
    | some (some c) => c
    | _ => []
  let sess := onnxImportable && (match onnxLoad with | .ok _ => true | .error _ => false)
  let mdl := !sess && torchImportable &&
    (match torchLoad with | .ok _ => true | .error _ => false)
  ⟨cfg, sess, mdl⟩

/-! ### Well-formedness of phoneme tables and basic lemmas -/

/-- A table is well formed when every symbol maps to a non-empty id list
(the shape every real `phoneme_id_map` has: Python's `[id]` singletons). -/
def WFtable (m : PhonemeTable) : Prop := ∀ p ∈ m, p.2 ≠ []

instance (m : PhonemeTable) : Decidable (WFtable m) := by
  unfold WFtable
  infer_instance

theorem listMax_core {α : Type} [LinearOrder α] (xs : List α) :
    ∀ x : α, x ≤ xs.foldl max x ∧ (∀ v ∈ xs, v ≤ xs.foldl max x) ∧ xs.foldl max x ∈ x :: xs := by
  induction xs with
  | nil =>
    intro x
    exact ⟨le_refl x, by simp, by simp⟩
  | cons a as ih =>
    intro x
    obtain ⟨h1, h2, h3⟩ := ih (max x a)
    simp only [List.foldl_cons]
    refine ⟨le_trans (le_max_left x a) h1, ?_, ?_⟩
    · intro v hv
      rcases List.mem_cons.mp hv with rfl | hv2
      · exact le_trans (le_max_right x v) h1
      · exact h2 v hv2
    · rcases List.mem_cons.mp h3 with heq | hmem
      · rcases max_choice x a with hx | ha
        · rw [heq, hx]; exact List.mem_cons_self _ _
        · rw [heq, ha]; exact List.mem_cons_of_mem _ (List.mem_cons_self _ _)
      · exact List.mem_cons_of_mem _ (List.mem_cons_of_mem _ hmem)

theorem listMax_spec {α : Type} [LinearOrder α] {l : List α} {m : α}
    (h : listMax l = .ok m) : (∀ v ∈ l, v ≤ m) ∧ m ∈ l := by
  cases l with
  | nil => simp [listMax] at h
  | cons x xs =>
    have hm : xs.foldl max x = m := by simpa [listMax] using h
    obtain ⟨h1, h2, h3⟩ := listMax_core xs x
    rw [hm] at h1 h2 h3
    refine ⟨?_, h3⟩
    intro v hv
    rcases List.mem_cons.mp hv with rfl | hv2
    · exact h1
    · exact h2 v hv2

theorem headE_ok {l : List Nat} (h : l ≠ []) : ∃ v, headE l = .ok v ∧ v ∈ l := by
  cases l with
  | nil => exact absurd rfl h
  | cons x xs => exact ⟨x, rfl, List.mem_cons_self _ _⟩

theorem tableLookup_mem {m : PhonemeTable} {k : String} {ids : List Nat}
    (h : tableLookup m k = some ids) : (k, ids) ∈ m := by
  unfold tableLookup at h
  cases hf : m.find? (fun p => p.1 == k) with
  | none => simp [hf] at h
  | some p =>
    have hmem := List.mem_of_find?_eq_some hf
    have hpred := List.find?_some hf
    have hk : p.1 = k := by simpa using hpred
    have h2 : p.2 = ids := by simpa [hf] using h
    obtain ⟨k1, ids1⟩ := p
    simp only at hk h2
    subst hk
    subst h2
    exact hmem

theorem getSymbolId_ok {m : PhonemeTable} (hwf : WFtable m) (k : String) (d : Nat) :
    ∃ v, getSymbolId m k d = .ok v := by
  unfold getSymbolId
  cases hl : tableLookup m k with
  | none => exact ⟨d, rfl⟩
  | some ids =>
    have hmem := tableLookup_mem hl
    obtain ⟨v, hv, _⟩ := headE_ok (hwf _ hmem)
    exact ⟨v, hv⟩

theorem getSymbolId_mem {m : PhonemeTable} (hwf : WFtable m) {k : String} (d : Nat)
    (hk : tableMem m k = true) :
    ∃ ids v, tableLookup m k = some ids ∧ (k, ids) ∈ m ∧ v ∈ ids ∧
      getSymbolId m k d = .ok v := by
  unfold tableMem at hk
  cases hl : tableLookup m k with
  | none => rw [hl] at hk; cases hk
  | some ids =>
    have hmem := tableLookup_mem hl
    obtain ⟨v, hv, hvmem⟩ := headE_ok (hwf _ hmem)
    refine ⟨ids, v, rfl, hmem, hvmem, ?_⟩
    unfold getSymbolId
    rw [hl]
    exact hv

theorem encodeCharFixed_ok {m : PhonemeTable} (hwf : WFtable m) (c : Char) :
    ∃ v, encodeCharFixed m c = .ok v := by
  cases hc : charToPhoneme c with
  | none =>
    obtain ⟨v, hv⟩ := getSymbolId_ok hwf " " 3
    exact ⟨v, by simp [encodeCharFixed, hc, hv]⟩
  | some p =>
    cases hl : tableLookup m p with
    | none =>
      obtain ⟨v, hv⟩ := getSymbolId_ok hwf " " 3
      exact ⟨v, by simp [encodeCharFixed, hc, hl, hv]⟩
    | some ids =>
      have hmem := tableLookup_mem hl
      obtain ⟨v, hv, _⟩ := headE_ok (hwf _ hmem)
      exact ⟨v, by simp [encodeCharFixed, hc, hl, hv]⟩

theorem mapME_ok {α β : Type} {f : α → Except Unit β} {l : List α}
    (h : ∀ a ∈ l, ∃ b, f a = .ok b) :
    ∃ bs, mapME f l = .ok bs ∧ bs.length = l.length := by
  induction l with
  | nil => exact ⟨[], rfl, rfl⟩
  | cons a as ih =>
    obtain ⟨b, hb⟩ := h a (List.mem_cons_self a as)
    obtain ⟨bs, hbs, hlen⟩ := ih (fun x hx => h x (List.mem_cons_of_mem a hx))
    refine ⟨b :: bs, ?_, by simp [hlen]⟩
    simp [mapME, hb, hbs]

theorem mapME_mem {α β : Type} {f : α → Except Unit β} {l : List α} {bs : List β}
    (h : mapME f l = .ok bs) : ∀ a ∈ l, ∃ b ∈ bs, f a = .ok b := by
  induction l generalizing bs with
  | nil => simp
  | cons a as ih =>
    intro x hx
    cases hfa : f a with
    | error e =>
      simp only [mapME, hfa] at h
      exact Except.noConfusion h
    | ok b =>
      cases hrest : mapME f as with
      | error e =>
        simp only [mapME, hfa, hrest] at h
        exact Except.noConfusion h
      | ok cs =>
        simp only [mapME, hfa, hrest, Except.ok.injEq] at h
        subst h
        rcases List.mem_cons.mp hx with rfl | hx2
        · exact ⟨b, List.mem_cons_self _ _, hfa⟩
        · obtain ⟨c, hc, hfc⟩ := ih hrest x hx2
          exact ⟨c, List.mem_cons_of_mem _ hc, hfc⟩

theorem tableMaxId_spec {m : PhonemeTable} (hwf : WFtable m) (hne : m ≠ []) :
    ∃ mx, tableMaxId m = .ok mx ∧ ∀ p ∈ m, ∀ v ∈ p.2, v ≤ mx := by
  have hok : ∀ p ∈ m, ∃ b, listMax p.2 = .ok b := by
    intro p hp
    cases h2 : p.2 with
    | nil => exact absurd h2 (hwf p hp)
    | cons x xs => exact ⟨xs.foldl max x, rfl⟩
  obtain ⟨maxes, hmaxes, hlen⟩ := mapME_ok hok
  have hmne : maxes ≠ [] := by
    intro hnil
    rw [hnil] at hlen
    cases m with
    | nil => exact hne rfl
    | cons p ps => simp at hlen
  obtain ⟨mx, hmx⟩ : ∃ mx, listMax maxes = .ok mx := by
    cases maxes with
    | nil => exact absurd rfl hmne
    | cons x xs => exact ⟨xs.foldl max x, rfl⟩
  refine ⟨mx, ?_, ?_⟩
  · unfold tableMaxId
    rw [hmaxes]
    exact hmx
  · intro p hp v hv
    obtain ⟨b, hbmem, hfb⟩ := mapME_mem hmaxes p hp
    have hble := (listMax_spec hmx).1 b hbmem
    have hvle := (listMax_spec hfb).1 v hv
    exact le_trans hvle hble

theorem WF_default : WFtable createDefaultPhonemeMap := by decide

theorem WF_effective {table : PhonemeTable} (hwf : WFtable table) :
    WFtable (effectiveTable table) := by
  unfold effectiveTable
  split
  · exact WF_default
  · exact hwf

theorem effective_ne_nil (table : PhonemeTable) : effectiveTable table ≠ [] := by
  unfold effectiveTable
  split
  · decide
  · next h =>
    intro hnil
    rw [hnil] at h
    exact h rfl

theorem getLast?_map_concat {α β : Type} (f : α → β) (x : α) (xs : List α) (y : α) :
    ((x :: (xs ++ [y])).map f).getLast? = some (f y) := by
  rw [List.map_cons, List.map_append, List.map_singleton, ← List.cons_append,
      List.getLast?_concat]

theorem phonemizeCore_ok {m : PhonemeTable} (hwf : WFtable m) (hne : m ≠ []) (t : List Char) :
    ∃ l, phonemizeCore m t = .ok l ∧ l.length = t.length + 2 := by
  obtain ⟨bos, hbos⟩ := getSymbolId_ok hwf "_" 1
  have hall : ∀ c ∈ t, ∃ v, encodeCharFixed m c = .ok v := fun c _ => encodeCharFixed_ok hwf c
  obtain ⟨body, hbody, hblen⟩ := mapME_ok hall
  obtain ⟨eos, heos⟩ := getSymbolId_ok hwf "$" 2
  obtain ⟨mx, hmx, _⟩ := tableMaxId_spec hwf hne
  have hie : m.isEmpty = false := by
    cases m with
    | nil => exact absurd rfl hne
    | cons p ps => rfl
  refine ⟨(bos :: (body ++ [eos])).map (fun i => min i mx), ?_, ?_⟩
  · simp [phonemizeCore, hbos, hbody, heos, hie, hmx]
  · simp [hblen]

theorem phonemizeCore_spec {m : PhonemeTable} (hwf : WFtable m) (hne : m ≠ [])
    (hb : tableMem m "_" = true) (he : tableMem m "$" = true) (t : List Char) :
    ∃ b e mx l, getSymbolId m "_" 1 = .ok b ∧ getSymbolId m "$" 2 = .ok e ∧
      tableMaxId m = .ok mx ∧ phonemizeCore m t = .ok l ∧
      l.head? = some b ∧ l.getLast? = some e ∧ ∀ x ∈ l, x ≤ mx := by
  obtain ⟨bids, b, hbl, hbmem, hbin, hbos⟩ := getSymbolId_mem hwf 1 hb
  obtain ⟨eids, e, hel, hemem, hein, heos⟩ := getSymbolId_mem hwf 2 he
  have hall : ∀ c ∈ t, ∃ v, encodeCharFixed m c = .ok v := fun c _ => encodeCharFixed_ok hwf c
  obtain ⟨body, hbody, _⟩ := mapME_ok hall
  obtain ⟨mx, hmx, hbound⟩ := tableMaxId_spec hwf hne
  have hble : b ≤ mx := hbound _ hbmem b hbin
  have hele : e ≤ mx := hbound _ hemem e hein
  have hie : m.isEmpty = false := by
    cases m with
    | nil => exact absurd rfl hne
    | cons p ps => rfl
  refine ⟨b, e, mx, (b :: (body ++ [e])).map (fun i => min i mx),
    hbos, heos, hmx, ?_, ?_, ?_, ?_⟩
  · simp [phonemizeCore, hbos, hbody, heos, hie, hmx]
  · simp [Nat.min_eq_left hble]
  · rw [getLast?_map_concat]
    simp [Nat.min_eq_left hele]
  · intro x hx
    obtain ⟨i, _, rfl⟩ := List.mem_map.mp hx
    exact Nat.min_le_right i mx

/-! ### Amplitude bounds of the peak-normalization paths -/

theorem maxAbs_spec {l : List ℚ} {m : ℚ} (h : maxAbs l = .ok m) :
    0 ≤ m ∧ ∀ x ∈ l, |x| ≤ m := by
  unfold maxAbs at h
  obtain ⟨hle, hmem⟩ := listMax_spec h
  constructor
  · obtain ⟨y, _, hy⟩ := List.mem_map.mp hmem
    rw [← hy]
    exact abs_nonneg y
  · intro x hx
    exact hle _ (List.mem_map.mpr ⟨x, hx, rfl⟩)

theorem peakNormalize_bound {c : ℚ} (hc0 : 0 ≤ c) (hc1 : c ≤ 1) {l out : List ℚ}
    (h : peakNormalize c l = .ok out) : ∀ x ∈ out, |x| ≤ 1 := by
  unfold peakNormalize at h
  cases hm : maxAbs l with
  | error e =>
    rw [hm] at h
    exact Except.noConfusion h
  | ok m =>
    rw [hm] at h
    obtain ⟨hm0, hbound⟩ := maxAbs_spec hm
    have hout : (if 0 < m then l.map (fun x => c * x / m) else l) = out := by
      simpa using h
    by_cases hpos : 0 < m
    · rw [if_pos hpos] at hout
      subst hout
      intro x hx
      obtain ⟨y, hy, rfl⟩ := List.mem_map.mp hx
      have hya : |y| ≤ m := hbound y hy
      rw [abs_div, abs_mul, abs_of_nonneg hc0, abs_of_pos hpos]
      have h1 : c * |y| / m ≤ c * m / m :=
        (div_le_div_iff_of_pos_right hpos).mpr (mul_le_mul_of_nonneg_left hya hc0)
      rw [mul_div_cancel_right₀ c (ne_of_gt hpos)] at h1
      exact le_trans h1 hc1
    · rw [if_neg hpos] at hout
      subst hout
      intro x hx
      have hxm := hbound x hx
      have hm0' : m ≤ 0 := le_of_not_lt hpos
      have : |x| ≤ 0 := le_trans hxm hm0'
      linarith

theorem synthesize_with_onnx_bound {sess : Option (Except Unit (List ℚ))} {out : List ℚ}
    (h : synthesize_with_onnx sess = .ok out) : ∀ x ∈ out, |x| ≤ 1 := by
  cases sess with
  | none =>
    simp only [synthesize_with_onnx] at h
    exact Except.noConfusion h
  | some r =>
    cases r with
    | error e =>
      simp only [synthesize_with_onnx] at h
      exact Except.noConfusion h
    | ok audio =>
      simp only [synthesize_with_onnx] at h
      exact peakNormalize_bound (by norm_num) (by norm_num) h

theorem synthesize_with_pytorch_bound {mdl : Option (Except Unit (List ℚ))} {out : List ℚ}
    (h : synthesize_with_pytorch mdl = .ok out) : ∀ x ∈ out, |x| ≤ 1 := by
  cases mdl with
  | none =>
    simp only [synthesize_with_pytorch] at h
    exact Except.noConfusion h
  | some r =>
    cases r with
    | error e =>
      simp only [synthesize_with_pytorch] at h
      exact Except.noConfusion h
    | ok audio =>
      simp only [synthesize_with_pytorch] at h
      exact peakNormalize_bound (by norm_num) (by norm_num) h

theorem generate_fallback_audio_bound {sinA : ℚ → ℚ} {text : List Char} {sr : Nat}
    {out : List ℚ} (h : generate_fallback_audio sinA text sr = .ok out) :
    ∀ x ∈ out, |x| ≤ 1 := by
  unfold generate_fallback_audio at h
  exact peakNormalize_bound (by norm_num) (by norm_num) h

theorem cascadeAfterEncode_bound {sess mdl : Option (Except Unit (List ℚ))}
    {sinA : ℚ → ℚ} {text : List Char} {sr : Nat} {out : List ℚ}
    (h : cascadeAfterEncode sess mdl sinA text sr = .ok out) : ∀ x ∈ out, |x| ≤ 1 := by
  cases sess with
  | some r =>
    simp only [cascadeAfterEncode] at h
    cases ho : synthesize_with_onnx (some r) with
    | ok a =>
      simp only [ho, Except.ok.injEq] at h
      subst h
      exact synthesize_with_onnx_bound ho
    | error e =>
      simp only [ho] at h
      cases mdl with
      | some r2 => exact synthesize_with_pytorch_bound h
      | none => exact Except.noConfusion h
  | none =>
    simp only [cascadeAfterEncode] at h
    cases mdl with
    | some r2 => exact synthesize_with_pytorch_bound h
    | none => exact generate_fallback_audio_bound h

theorem synthesizeM_bound {sess mdl : Option (Except Unit (List ℚ))} {cfg : PhonemeTable}
    {sinA : ℚ → ℚ} {text : List Char} {sr : Nat} {out : List ℚ}
    (h : synthesizeM sess mdl cfg sinA text sr = .ok out) : ∀ x ∈ out, |x| ≤ 1 := by
  unfold synthesizeM at h
  cases hp : text_to_phonemes_fixed cfg text with
  | error e =>
    rw [hp] at h
    simp only at h
    exact generate_fallback_audio_bound h
  | ok l =>
    rw [hp] at h
    simp only at h
    cases hc : cascadeAfterEncode sess mdl sinA text sr with
    | ok a =>
      rw [hc] at h
      simp only at h
      cases h
      exact cascadeAfterEncode_bound hc
    | error e =>
      rw [hc] at h
      simp only at h
      exact generate_fallback_audio_bound h

/-! ### Structure of the fallback token generator -/

theorem catMap_mem {α β : Type} {f : α → List β} {l : List α} {x : β}
    (h : x ∈ catMap f l) : ∃ a ∈ l, x ∈ f a := by
  induction l with
  | nil => simp [catMap] at h
  | cons a as ih =>
    simp only [catMap] at h
    rcases List.mem_append.mp h with h1 | h2
    · exact ⟨a, List.mem_cons_self _ _, h1⟩
    · obtain ⟨b, hb, hx⟩ := ih h2
      exact ⟨b, List.mem_cons_of_mem _ hb, hx⟩

theorem fallbackTokenAt_mem {i x : Nat} (h : x ∈ fallbackTokenAt i) :
    x = 3 ∨ x ∈ vowelPool ∨ x ∈ consonantPool := by
  unfold fallbackTokenAt at h
  rcases List.mem_append.mp h with h1 | h2
  · by_cases he : i % 2 = 0
    · rw [if_pos he] at h1
      have hx : x = vowelPool.getD (i % 5) 0 := List.mem_singleton.mp h1
      have h5 : i % 5 < 5 := Nat.mod_lt _ (by norm_num)
      have hmem : ∀ k, k < 5 → vowelPool.getD k 0 ∈ vowelPool := by decide
      right; left
      rw [hx]
      exact hmem _ h5
    · rw [if_neg he] at h1
      have hx : x = consonantPool.getD (i % 18) 0 := List.mem_singleton.mp h1
      have h18 : i % 18 < 18 := Nat.mod_lt _ (by norm_num)
      have hmem : ∀ k, k < 18 → consonantPool.getD k 0 ∈ consonantPool := by decide
      right; right
      rw [hx]
      exact hmem _ h18
  · by_cases h3 : i % 4 = 3
    · rw [if_pos h3] at h2
      left
      exact List.mem_singleton.mp h2
    · rw [if_neg h3] at h2
      simp at h2

theorem foldl_id {α β : Type} (g : α → β → α) (hg : ∀ a b, g a b = a) :
    ∀ (l : List β) (a : α), l.foldl g a = a := by
  intro l
  induction l with
  | nil => intro a; rfl
  | cons b bs ih =>
    intro a
    rw [List.foldl_cons, hg]
    exact ih a

/-- With the all-zero sine stand-in every harmonic sum collapses to zero. -/
theorem harmonicAt_zeroSig (l : List Char) : harmonicAt zeroSig l = fun _ => 0 := by
  funext τ
  unfold harmonicAt zeroSig
  exact foldl_id _ (fun a p => by split <;> simp) l.enum 0

theorem effectiveTable_of_ne {table : PhonemeTable} (h : table ≠ []) :
    effectiveTable table = table := by
  unfold effectiveTable
  cases table with
  | nil => exact absurd rfl h
  | cons p ps => rfl

theorem tableMem_ne_nil {table : PhonemeTable} {k : String} (h : tableMem table k = true) :
    table ≠ [] := by
  intro hnil
  subst hnil
  simp [tableMem, tableLookup] at h

/-! ### Claim theorems -/

/-- Claim C1 (code-bug evidence).  The cascade of `synthesize` behaves as
claimed at concrete backend outcomes — the ONNX tier is tried first and wins
when it succeeds; when it fails at call time the same call falls to the
PyTorch tier when one is loaded, and to the synthetic generator when not —
but on the empty text with no backend loaded `synthesize` does not return a
waveform: the synthetic generator raises on its zero-length buffer and the
exception propagates to the caller. -/
theorem c1_cascade_order_eval :
    synthesizeM (some (.ok [0])) (some (.ok [0, 0])) [] zeroSig ['h', 'i'] 10 = .ok [0] ∧
    synthesizeM (some (.error ())) (some (.ok [0, 0])) [] zeroSig ['h', 'i'] 10 = .ok [0, 0] ∧
    synthesizeM (some (.error ())) none [] zeroSig ['h', 'i', 'j'] 10 = .ok [0, 0, 0] ∧
    synthesizeM none none [] zeroSig [] 22050 = .error () := by
  have hp2 : text_to_phonemes_fixed [] ['h', 'i'] = .ok [1, 22, 21, 2] := rfl
  have hp3 : text_to_phonemes_fixed [] ['h', 'i', 'j'] = .ok [1, 22, 21, 23, 2] := rfl
  have hn1 : peakNormalize (4 / 5 : ℚ) [0] = .ok [0] := by
    norm_num [peakNormalize, maxAbs, listMax]
  have hn2 : peakNormalize (4 / 5 : ℚ) [0, 0] = .ok [0, 0] := by
    norm_num [peakNormalize, maxAbs, listMax]
  have hf3 : generate_fallback_audio zeroSig ['h', 'i', 'j'] 10 = .ok [0, 0, 0] := by
    norm_num [generate_fallback_audio, harmonicAt_zeroSig, linspace, applyAttack, applyRelease,
      peakNormalize, maxAbs, listMax, List.range_succ, pyLower, List.replicate_succ,
      List.zipWith_cons_cons]
  refine ⟨?_, ?_, ?_, rfl⟩
  · simp [synthesizeM, cascadeAfterEncode, synthesize_with_onnx, hp2, hn1]
  · simp [synthesizeM, cascadeAfterEncode, synthesize_with_onnx, synthesize_with_pytorch,
      hp2, hn2]
  · simp [synthesizeM, cascadeAfterEncode, synthesize_with_onnx, hp3, hf3]

/-- Claim C2, counterexample.  On the descriptor whose table is `{"a": [0]}`
(non-empty, so no default substitution, and without the `"_"`/`"$"` control
symbols) the BOS id defaults to `1` and the EOS id to `2`, but the final clamp
to `maxId = 0` rewrites them, so the returned sequence `[0, 0, 0]` neither
begins with the BOS id nor ends with the EOS id. -/
theorem c2_bos_clamped_counterexample :
    getSymbolId [("a", [0])] "_" 1 = .ok 1 ∧
    getSymbolId [("a", [0])] "$" 2 = .ok 2 ∧
    text_to_phonemes_fixed [("a", [0])] ['a'] = .ok [0, 0, 0] := ⟨rfl, rfl, rfl⟩

/-- Claim C2, amended.  For every text and every descriptor whose phoneme
table either is empty (the default table is substituted) or contains the BOS
and EOS control symbols, with all id lists non-empty, the fixed variant's
encoder returns a sequence whose first element is the BOS id, whose last
element is the EOS id, and all of whose elements lie in `[0, maxId]`. -/
theorem c2_encoder_framing_amended (table : PhonemeTable) (text : List Char)
    (hctl : table = [] ∨ (tableMem table "_" = true ∧ tableMem table "$" = true))
    (hwf : WFtable table) :
    ∃ b e mx l,
      getSymbolId (effectiveTable table) "_" 1 = .ok b ∧
      getSymbolId (effectiveTable table) "$" 2 = .ok e ∧
      tableMaxId (effectiveTable table) = .ok mx ∧
      text_to_phonemes_fixed table text = .ok l ∧
      l.head? = some b ∧ l.getLast? = some e ∧ ∀ x ∈ l, x ≤ mx := by
  have hwfe := WF_effective hwf
  have hne := effective_ne_nil table
  have hb : tableMem (effectiveTable table) "_" = true := by
    rcases hctl with rfl | ⟨h1, h2⟩
    · decide
    · rw [effectiveTable_of_ne (tableMem_ne_nil h1)]
      exact h1
  have he : tableMem (effectiveTable table) "$" = true := by
    rcases hctl with rfl | ⟨h1, h2⟩
    · decide
    · rw [effectiveTable_of_ne (tableMem_ne_nil h1)]
      exact h2
  exact phonemizeCore_spec hwfe hne hb he (pyStrip (pyLower text))

/-- Claim C2, witness: the amended theorem applied to the empty table (default
table substituted) and the text "hi". -/
theorem c2_encoder_framing_witness :
    ∃ b e mx l,
      getSymbolId (effectiveTable []) "_" 1 = .ok b ∧
      getSymbolId (effectiveTable []) "$" 2 = .ok e ∧
      tableMaxId (effectiveTable []) = .ok mx ∧
      text_to_phonemes_fixed [] ['h', 'i'] = .ok l ∧
      l.head? = some b ∧ l.getLast? = some e ∧ ∀ x ∈ l, x ≤ mx :=
  c2_encoder_framing_amended [] ['h', 'i'] (Or.inl rfl) (by decide)

/-- Claim C3 (code-bug evidence).  On the empty text the fixed variant's
encoder does return exactly `[BOS, EOS] = [1, 2]`, but the synthetic fallback
audio generator does not return a non-empty buffer: its sample count is zero
and `np.max` over the empty buffer raises, for every sample rate and sine
oracle. -/
theorem c3_empty_text_eval :
    text_to_phonemes_fixed [] [] = .ok [1, 2] ∧
    ∀ (sinA : ℚ → ℚ) (sr : Nat), generate_fallback_audio sinA [] sr = .error () := by
  refine ⟨rfl, ?_⟩
  intro sinA sr
  unfold generate_fallback_audio
  simp [linspace, applyAttack, applyRelease, peakNormalize, maxAbs, listMax]

/-- Claim C4.  An empty phoneme table is replaced by the fixed default table
(33 symbols: the three control symbols, four punctuation marks and the 26
letters, with maximum id 39), so `maxId` is well defined and encoding with an
empty configured table never fails, for any text. -/
theorem c4_default_table_substitution :
    effectiveTable [] = createDefaultPhonemeMap ∧
    tableMaxId createDefaultPhonemeMap = .ok 39 ∧
    createDefaultPhonemeMap.length = 33 ∧
    (tableMem createDefaultPhonemeMap "_" = true ∧
     tableMem createDefaultPhonemeMap "$" = true ∧
     tableMem createDefaultPhonemeMap " " = true) ∧
    (∀ c ∈ ['a', 'b', 'c', 'd', 'e', 'f', 'g', 'h', 'i', 'j', 'k', 'l', 'm', 'n', 'o',
            'p', 'q', 'r', 's', 't', 'u', 'v', 'w', 'x', 'y', 'z'],
       tableMem createDefaultPhonemeMap (String.mk [c]) = true) ∧
    (∀ text : List Char, ∃ l, text_to_phonemes_fixed [] text = .ok l) := by
  refine ⟨rfl, rfl, rfl, by decide, by decide, ?_⟩
  intro text
  obtain ⟨l, hl, _⟩ := phonemizeCore_ok WF_default (by decide) (pyStrip (pyLower text))
  exact ⟨l, hl⟩

/-- Claim C5, counterexample.  A well-parsed sidecar together with a model
artifact that no backend can load (for instance because the file does not
exist) still constructs successfully in the original variant: there is no
`ModelArtifactNotFound` failure, the backends are silently demoted instead. -/
theorem c5_missing_model_counterexample :
    initOriginal (some (some [])) (.error ()) (.error ()) =
      .ok { config := [], onnx_available := false, pytorch_available := some false } := rfl

/-- Claim C5, amended.  The original variant's loader raises exactly on a
missing sidecar and on a malformed sidecar; once the sidecar parses it always
constructs, whatever the backend load outcomes and whatever fields the
configuration has (missing fields never fail).  A missing model artifact never
causes a load failure.  The fixed variant's loader additionally absorbs
sidecar errors, degrading to an empty configuration. -/
theorem c5_loader_errors_amended :
    (∀ o t : Except Unit Unit, initOriginal none o t = .error .configNotFound) ∧
    (∀ o t : Except Unit Unit, initOriginal (some none) o t = .error .configMalformed) ∧
    (∀ (cfg : PhonemeTable) (o t : Except Unit Unit),
       ∃ s, initOriginal (some (some cfg)) o t = .ok s) ∧
    (∀ (oa : Bool) (ol : Except Unit Unit) (ta : Bool) (tl : Except Unit Unit),
       (initFixed none oa ol ta tl).config = []) := by
  refine ⟨fun o t => rfl, fun o t => rfl, ?_, fun oa ol ta tl => rfl⟩
  intro cfg o t
  cases o with
  | ok u => exact ⟨_, rfl⟩
  | error e =>
    cases t with
    | ok u => exact ⟨_, rfl⟩
    | error f => exact ⟨_, rfl⟩

/-- Claim C6.  With no backend loaded, `synthesize` is exactly the fallback
audio generator — a pure function of the text, the sample rate and the (fixed,
deterministic) sine function, independent of the configuration — so two calls
with identical `(text, sampleRate)` return bit-identical waveforms. -/
theorem c6_synthetic_determinism (cfg cfg2 : PhonemeTable) (sinA : ℚ → ℚ)
    (text : List Char) (sr : Nat) :
    synthesizeM none none cfg sinA text sr = generate_fallback_audio sinA text sr ∧
    synthesizeM none none cfg sinA text sr = synthesizeM none none cfg2 sinA text sr := by
  have key : ∀ c : PhonemeTable,
      synthesizeM none none c sinA text sr = generate_fallback_audio sinA text sr := by
    intro c
    unfold synthesizeM
    cases hp : text_to_phonemes_fixed c text <;>
      cases hf : generate_fallback_audio sinA text sr <;>
        simp [cascadeAfterEncode, hp, hf]
  exact ⟨key cfg, (key cfg).trans (key cfg2).symm⟩

/-- Claim C7.  The fallback token generator depends on the input only through
its length; its output starts with the BOS id `1`, ends with the EOS id `2`,
and every token is the separator id `3` or comes from the fixed 5-element
vowel pool or the fixed 18-element consonant pool. -/
theorem c7_fallback_token_structure :
    (∀ t1 t2 : List Char, t1.length = t2.length →
       generate_fallback_phonemes t1 = generate_fallback_phonemes t2) ∧
    (∀ t : List Char, (generate_fallback_phonemes t).head? = some 1 ∧
       (generate_fallback_phonemes t).getLast? = some 2) ∧
    (∀ t : List Char, ∀ x ∈ generate_fallback_phonemes t,
       x ∈ [1, 2, 3] ++ vowelPool ++ consonantPool) := by
  refine ⟨?_, ?_, ?_⟩
  · intro t1 t2 h
    unfold generate_fallback_phonemes
    rw [h]
  · intro t
    refine ⟨rfl, ?_⟩
    unfold generate_fallback_phonemes
    rw [← List.cons_append, List.getLast?_concat]
  · intro t x hx
    unfold generate_fallback_phonemes at hx
    rcases List.mem_cons.mp hx with rfl | hx2
    · decide
    · rcases List.mem_append.mp hx2 with h1 | h2
      · obtain ⟨i, _, hxi⟩ := catMap_mem h1
        rcases fallbackTokenAt_mem hxi with rfl | hv | hc
        · decide
        · exact List.mem_append.mpr (Or.inl (List.mem_append.mpr (Or.inr hv)))
        · exact List.mem_append.mpr (Or.inr hc)
      · have hx3 : x = 2 := List.mem_singleton.mp h2
        subst hx3
        decide

/-- Claim C7, witness: two different one-character texts give identical token
sequences, and the vowel id 14 produced for "a" lies in the allowed pools. -/
theorem c7_fallback_token_witness :
    generate_fallback_phonemes ['a'] = generate_fallback_phonemes ['b'] ∧
    (14 : Nat) ∈ [1, 2, 3] ++ vowelPool ++ consonantPool :=
  ⟨c7_fallback_token_structure.1 ['a'] ['b'] rfl,
   c7_fallback_token_structure.2.2 ['a'] 14 (by decide)⟩

/-- Claim C8, counterexample.  The fixed variant's encoder has no enclosing
exception handler: on the malformed table `{"a": []}` (an empty id list) the
lookup of `"a"` indexes an empty list and the call raises instead of
returning the fallback token generator's output. -/
theorem c8_fixed_encoder_raises_counterexample :
    text_to_phonemes_fixed [("a", [])] ['a'] = .error () := rfl

/-- Claim C8, amended.  The original variant's encoder never raises: a
linguistic-engine failure always yields the fallback token generator's
output, and in general every call either returns the `try`-body's value or
the fallback output.  The fixed variant's encoder is exception-free only for
tables whose id lists are all non-empty. -/
theorem c8_encoder_error_policy_amended :
    (∀ (table : PhonemeTable) (text : List Char),
       text_to_phonemes_orig table (.error ()) text = generate_fallback_phonemes text) ∧
    (∀ (table : PhonemeTable) (gr : Except Unit (List GWord)) (text : List Char),
       text_to_phonemes_orig table gr text = generate_fallback_phonemes text ∨
       ∃ l, origCore table gr = .ok l ∧ text_to_phonemes_orig table gr text = l) ∧
    (∀ (table : PhonemeTable) (text : List Char), WFtable table →
       ∃ l, text_to_phonemes_fixed table text = .ok l) := by
  refine ⟨?_, ?_, ?_⟩
  · intro table text
    unfold text_to_phonemes_orig
    split
    · rfl
    · cases hb : getSymbolId table "_" 1 with
      | error e => simp [origCore, hb]
      | ok bos => simp [origCore, hb]
  · intro table gr text
    unfold text_to_phonemes_orig
    split
    · left; rfl
    · cases ho : origCore table gr with
      | ok l => right; exact ⟨l, rfl, rfl⟩
      | error e => left; rfl
  · intro table text hwf
    obtain ⟨l, hl, _⟩ := phonemizeCore_ok (WF_effective hwf) (effective_ne_nil table)
      (pyStrip (pyLower text))
    exact ⟨l, hl⟩

/-- Claim C8, witness: a failed linguistic engine on a concrete table yields
the fallback tokens, and the fixed encoder succeeds on a concrete well-formed
table. -/
theorem c8_encoder_error_policy_witness :
    text_to_phonemes_orig [("x", [4])] (.error ()) ['y'] = generate_fallback_phonemes ['y'] ∧
    ∃ l, text_to_phonemes_fixed [("a", [5])] ['a'] = .ok l :=
  ⟨c8_encoder_error_policy_amended.1 [("x", [4])] ['y'],
   c8_encoder_error_policy_amended.2.2 [("a", [5])] ['a'] (by decide)⟩

/-- Claim C9.  Every waveform the fixed variant's `synthesize` returns — from
the ONNX tier, the PyTorch tier or the synthetic fallback, all of which end in
peak normalization to 0.8 (or leave an all-zero buffer untouched) — has every
sample in `[-1, 1]`; the mel-inversion postprocessing (peak normalization to
1.0) satisfies the same bound. -/
theorem c9_amplitude_bound :
    (∀ (sess mdl : Option (Except Unit (List ℚ))) (cfg : PhonemeTable) (sinA : ℚ → ℚ)
       (text : List Char) (sr : Nat) (out : List ℚ),
       synthesizeM sess mdl cfg sinA text sr = .ok out → ∀ x ∈ out, |x| ≤ 1) ∧
    (∀ reconstructed out : List ℚ, mel_to_audio reconstructed = .ok out →
       ∀ x ∈ out, |x| ≤ 1) := by
  constructor
  · intro sess mdl cfg sinA text sr out h
    exact synthesizeM_bound h
  · intro rec out h
    unfold mel_to_audio at h
    exact peakNormalize_bound (by norm_num) (by norm_num) h

/-- Claim C9, witness: the bound applied to a concrete successful synthesis
and to a concrete mel inversion. -/
theorem c9_amplitude_bound_witness : |(0 : ℚ)| ≤ 1 ∧ |(1 : ℚ)| ≤ 1 := by
  have h1 : synthesizeM (some (.ok [0])) none [] zeroSig ['a'] 10 = .ok [0] := by
    have hp : text_to_phonemes_fixed [] ['a'] = .ok [1, 14, 2] := rfl
    have hn : peakNormalize (4 / 5 : ℚ) [0] = .ok [0] := by
      norm_num [peakNormalize, maxAbs, listMax]
    simp [synthesizeM, cascadeAfterEncode, synthesize_with_onnx, hp, hn]
  have h2 : mel_to_audio [1] = .ok [1] := by
    norm_num [mel_to_audio, peakNormalize, maxAbs, listMax]
  exact ⟨c9_amplitude_bound.1 (some (.ok [0])) none [] zeroSig ['a'] 10 [0] h1 0 (by simp),
         c9_amplitude_bound.2 [1] [1] h2 1 (by simp)⟩

/-- Claim C10.  In the fixed variant's encoder every character of the
lowercased, stripped text contributes exactly one token, so the returned
sequence has length `len + 2` (BOS and EOS); a character outside the
`char_to_phoneme` mapping is encoded as the space/separator id, not dropped. -/
theorem c10_char_token_length (table : PhonemeTable) (text : List Char) (hwf : WFtable table) :
    (∃ l, text_to_phonemes_fixed table text = .ok l ∧
       l.length = (pyStrip (pyLower text)).length + 2) ∧
    (∀ c : Char, charToPhoneme c = none →
       encodeCharFixed (effectiveTable table) c = getSymbolId (effectiveTable table) " " 3) := by
  constructor
  · exact phonemizeCore_ok (WF_effective hwf) (effective_ne_nil table) (pyStrip (pyLower text))
  · intro c hc
    unfold encodeCharFixed
    rw [hc]

/-- Claim C10, witness: the length law on a concrete table and the text
"a@" (the unknown character `@` contributes a separator token). -/
theorem c10_char_token_length_witness :
    (∃ l, text_to_phonemes_fixed [("a", [7])] ['a', '@'] = .ok l ∧
       l.length = (pyStrip (pyLower ['a', '@'])).length + 2) ∧
    encodeCharFixed (effectiveTable [("a", [7])]) '@' =
      getSymbolId (effectiveTable [("a", [7])]) " " 3 :=
  ⟨(c10_char_token_length [("a", [7])] ['a', '@'] (by decide)).1,
   (c10_char_token_length [("a", [7])] ['a', '@'] (by decide)).2 '@' (by decide)⟩
